import Mathlib

/-!
Shallow embedding of the buzzer eBPF program generator
(src/pkg/ebpf/generation_utils.go and the Program object file), together
with theorems checking the natural-language specification against it.

Machine integers are modelled as Nat (uint8/uint64 values) and Int
(int16/int32 values), with explicit wrap-around where the Go code
converts between widths.  Go pointers to Register objects are modelled
as Option Nat: none is the nil pointer and some n is the pointer to the
global register object number n (two such pointers are equal exactly
when the register numbers agree, which Option equality captures).

The random number generator is an external dependency described by the
spec contract RandRange(lo, hi) : uniform draw in [lo, hi] inclusive.
We model one RNG outcome as a list of raw draws (arbitrary naturals); a
call RandRange lo hi consumes one raw draw d and yields lo + d % (hi -
lo + 1), so every in-range value is reachable and quantifying over all
draw lists quantifies over all RNG outcomes.  Functions that loop on
the RNG return Option: none models running past the supplied draws
(including loops the Go code would never exit).
-/

/-- Modelled from the spec: instruction class constants of the opcode
tables (section 4.2), missing from src/: ALU=0x04, JMP=0x05, ALU64=0x07. -/
def InsClassAlu : Nat := 0x04

/-- Modelled from the spec: the JMP instruction class constant. -/
def InsClassJmp : Nat := 0x05

/-- Modelled from the spec: the ALU64 instruction class constant. -/
def InsClassAlu64 : Nat := 0x07

/-- Modelled from the spec: ALU opcode constants (section 4.2).  The ops
ADD..ARSH have raw values 0x00..0x0c and the named constants hold the
encoded value after the 4-bit left shift, as used by the comparisons in
generation_utils.go (op == AluMov on an already shifted op). -/
def AluAdd : Nat := 0x00

/-- Modelled from the spec: the MUL ALU opcode (raw 0x02, shifted). -/
def AluMul : Nat := 0x20

/-- Modelled from the spec: the LSH ALU opcode (raw 0x06, shifted). -/
def AluLsh : Nat := 0x60

/-- Modelled from the spec: the RSH ALU opcode (raw 0x07, shifted). -/
def AluRsh : Nat := 0x70

/-- Modelled from the spec: the NEG ALU opcode (raw 0x08, shifted). -/
def AluNeg : Nat := 0x80

/-- Modelled from the spec: the MOV ALU opcode (raw 0x0b, shifted). -/
def AluMov : Nat := 0xb0

/-- Modelled from the spec: the ARSH ALU opcode (raw 0x0c, shifted). -/
def AluArsh : Nat := 0xc0

/-- Modelled from the spec: JMP opcode constants (section 4.2), raw
values 0x00..0x0d shifted left by 4.  JA is 0x00. -/
def JmpJA : Nat := 0x00

/-- Modelled from the spec: the JGT jump opcode (raw 0x02, shifted). -/
def JmpJGT : Nat := 0x20

/-- Modelled from the spec: the CALL jump opcode (raw 0x08, shifted). -/
def JmpCALL : Nat := 0x80

/-- Modelled from the spec: the EXIT jump opcode (raw 0x09, shifted). -/
def JmpExit : Nat := 0x90

/-- Modelled from the spec: the pointer to the global register object R0
(register number 0).  Register pointers are Option Nat; none is nil. -/
def RegR0 : Option Nat := some 0

/-- Modelled from the spec: placeholder constant for instruction fields
the authored helpers leave unused (the Imm field of Exit and JmpGT).
Its concrete value is irrelevant to every claim. -/
def UnusedField : Int := 0

/-- An authored instruction, before the sequence builder links it.  The
four shapes of generation_utils.go: AluImmInstruction, AluRegInstruction,
IMMJMPInstruction and RegJMPInstruction, each carrying its
BaseInstruction (Opcode, InstructionClass) fields.  The branch generator
closures of RegJMPInstruction are not data and are not modelled; no
claim depends on them. -/
inductive Instruction where
  | aluImm (op insClass : Nat) (dstReg : Option Nat) (imm : Int)
  | aluReg (op insClass : Nat) (dstReg srcReg : Option Nat)
  | immJmp (op insClass : Nat) (dstReg : Option Nat) (imm : Int) (falseBranchSize : Int)
  | regJmp (op insClass : Nat) (dstReg srcReg : Option Nat) (falseBranchSize : Int)
deriving DecidableEq, Repr

/-- A linked instruction node as produced by the sequence builder: the
same four shapes, with the successor pointers (nextInstruction for the
straight shapes, FalseBranchNextInstr / TrueBranchNextInstr for the jump
shapes) filled in.  The nil constructor models the nil Instruction
pointer (an absent node or successor). -/
inductive InstrTree where
  | nil
  | aluImm (op insClass : Nat) (dstReg : Option Nat) (imm : Int) (next : InstrTree)
  | aluReg (op insClass : Nat) (dstReg srcReg : Option Nat) (next : InstrTree)
  | immJmp (op insClass : Nat) (dstReg : Option Nat) (imm : Int) (falseBranchSize : Int)
      (falseNext trueNext : InstrTree)
  | regJmp (op insClass : Nat) (dstReg srcReg : Option Nat) (falseBranchSize : Int)
      (falseNext trueNext : InstrTree)
deriving DecidableEq, Repr

/-- The errors the embedded code can signal.  The Go code uses distinct
fmt.Errorf messages; each message is one constructor here.  RuntimePanic
models the Go slice-bounds panic that a negative false branch size
reaches in handleJmpInstruction (instructions[1:offset+1] with
offset+1 < 1). -/
inductive Err where
  | MapCreationFailed
  | EmptyProgram
  | InvalidZeroOffset
  | JumpOutOfBounds
  | EmptyJumpContext
  | RuntimePanic
deriving DecidableEq, Repr

/-- The authored instruction carried by a linked node (none for nil). -/
def instrOf : InstrTree → Option Instruction
  | .nil => none
  | .aluImm op c d i _ => some (.aluImm op c d i)
  | .aluReg op c d s _ => some (.aluReg op c d s)
  | .immJmp op c d i f _ _ => some (.immJmp op c d i f)
  | .regJmp op c d s f _ _ => some (.regJmp op c d s f)

/-- The linear successor of a node: the next pointer of a straight
instruction, nil for the branch shapes (which have no linear next). -/
def nextOf : InstrTree → InstrTree
  | .nil => .nil
  | .aluImm _ _ _ _ n => n
  | .aluReg _ _ _ _ n => n
  | .immJmp _ _ _ _ _ _ _ => .nil
  | .regJmp _ _ _ _ _ _ _ => .nil

/-- The false-branch successor of a node (nil for straight shapes). -/
def falseNextOf : InstrTree → InstrTree
  | .nil => .nil
  | .aluImm _ _ _ _ _ => .nil
  | .aluReg _ _ _ _ _ => .nil
  | .immJmp _ _ _ _ _ f _ => f
  | .regJmp _ _ _ _ _ f _ => f

/-- The true-branch successor of a node (nil for straight shapes). -/
def trueNextOf : InstrTree → InstrTree
  | .nil => .nil
  | .aluImm _ _ _ _ _ => .nil
  | .aluReg _ _ _ _ _ => .nil
  | .immJmp _ _ _ _ _ _ t => t
  | .regJmp _ _ _ _ _ _ t => t

/-- Whether an authored instruction is one of the two straight (non
jump) shapes. -/
def isStraight : Instruction → Bool
  | .aluImm _ _ _ _ => true
  | .aluReg _ _ _ _ => true
  | _ => false

/-- Whether an authored instruction is one of the two jump shapes. -/
def isJmp : Instruction → Bool
  | .immJmp _ _ _ _ _ => true
  | .regJmp _ _ _ _ _ => true
  | _ => false

/-- The FalseBranchSize field of a jump instruction (0 for straights). -/
def fbsOf : Instruction → Int
  | .immJmp _ _ _ _ f => f
  | .regJmp _ _ _ _ f => f
  | _ => 0

/-- The Opcode field of an authored instruction. -/
def opOf : Instruction → Nat
  | .aluImm op _ _ _ => op
  | .aluReg op _ _ _ => op
  | .immJmp op _ _ _ _ => op
  | .regJmp op _ _ _ _ => op

/-- The DstReg pointer of an authored instruction. -/
def dstRegOf : Instruction → Option Nat
  | .aluImm _ _ d _ => d
  | .aluReg _ _ d _ => d
  | .immJmp _ _ d _ _ => d
  | .regJmp _ _ d _ _ => d

/-- The SrcReg pointer of an authored instruction (none for the shapes
that have no source register field). -/
def srcRegOf : Instruction → Option Nat
  | .aluImm _ _ _ _ => none
  | .aluReg _ _ _ s => s
  | .immJmp _ _ _ _ _ => none
  | .regJmp _ _ _ s _ => s

/-- The Imm field of an authored instruction (0 for the shapes without
an immediate). -/
def immOf : Instruction → Int
  | .aluImm _ _ _ i => i
  | .aluReg _ _ _ _ => 0
  | .immJmp _ _ _ i _ => i
  | .regJmp _ _ _ _ _ => 0

/-- Whether every register pointer field of an instruction holds a real
register object (no field is the nil pointer). -/
def regHandlesPresent : Instruction → Bool
  | .aluImm _ _ d _ => d.isSome
  | .aluReg _ _ d s => d.isSome && s.isSome
  | .immJmp _ _ d _ _ => d.isSome
  | .regJmp _ _ d s _ => d.isSome && s.isSome

/-- A jump instruction authored with a false branch size that the
sequence builder rejects with InvalidZeroOffset: an IMM-JMP whose
FalseBranchSize is 0 and whose Opcode is not EXIT, or a Reg-JMP whose
FalseBranchSize is 0. -/
def isBadZeroJump : Instruction → Bool
  | .immJmp op _ _ _ fbs => fbs == 0 && !(op == JmpExit)
  | .regJmp _ _ _ _ fbs => fbs == 0
  | _ => false

mutual

/-- The recursive implementation behind InstructionSequence.  Walks the
authored list; straight instructions are spliced onto the chain via
SetNextInstruction, and at the first jump instruction the rest of the
list is handed to handleJmpInstruction, whose results become the
FalseBranchNextInstr / TrueBranchNextInstr of the jump node, after which
iteration stops.  The empty list yields an empty (nil) root with no
error. -/
def instructionSequenceImpl : List Instruction → Except Err InstrTree
  | [] => .ok .nil
  | .immJmp op insClass dst imm fbs :: rest =>
      if fbs = 0 ∧ op ≠ JmpExit then .error .InvalidZeroOffset
      else
        match handleJmpInstruction (.immJmp op insClass dst imm fbs :: rest) fbs with
        | .error e => .error e
        | .ok (falseBranchNextInstr, trueBranchNextInstr) =>
            .ok (.immJmp op insClass dst imm fbs falseBranchNextInstr trueBranchNextInstr)
  | .regJmp op insClass dst src fbs :: rest =>
      if fbs = 0 then .error .InvalidZeroOffset
      else
        match handleJmpInstruction (.regJmp op insClass dst src fbs :: rest) fbs with
        | .error e => .error e
        | .ok (falseBranchNextInstr, trueBranchNextInstr) =>
            .ok (.regJmp op insClass dst src fbs falseBranchNextInstr trueBranchNextInstr)
  | .aluImm op insClass dst imm :: rest =>
      match instructionSequenceImpl rest with
      | .error e => .error e
      | .ok next => .ok (.aluImm op insClass dst imm next)
  | .aluReg op insClass dst src :: rest =>
      match instructionSequenceImpl rest with
      | .error e => .error e
      | .ok next => .ok (.aluReg op insClass dst src next)
termination_by l => (l.length, 1)

/-- The branch splitter.  instructions[0] is the jump itself and offset
its FalseBranchSize; the false branch is instructions[1 .. offset+1) and
the true branch instructions[offset+1 ..], each built recursively by
instructionSequenceImpl.  An empty list is EmptyJumpContext; an offset
with offset+1 beyond the list is JumpOutOfBounds; a negative offset hits
the Go slice-bounds panic, modelled as RuntimePanic. -/
def handleJmpInstruction : List Instruction → Int → Except Err (InstrTree × InstrTree)
  | [], _ => .error .EmptyJumpContext
  | instr :: rest, offset =>
      if offset + 1 > ((instr :: rest).length : Int) then .error .JumpOutOfBounds
      else if offset + 1 < 1 then .error .RuntimePanic
      else
        match instructionSequenceImpl (rest.take offset.toNat) with
        | .error e => .error e
        | .ok falseBranchNextInstr =>
            match instructionSequenceImpl (rest.drop offset.toNat) with
            | .error e => .error e
            | .ok trueBranchNextInstr => .ok (falseBranchNextInstr, trueBranchNextInstr)
termination_by l _ => (l.length, 0)

end

/-- InstructionSequence: the public entry point, variadic in Go, a list
here. -/
def InstructionSequence (instructions : List Instruction) : Except Err InstrTree :=
  instructionSequenceImpl instructions

/-- Walking the linear successor links from a node: the node's authored
instruction followed by the walk of its next pointer.  A branch node has
no linear successor, so the walk stops there. -/
def walkTree : InstrTree → List Instruction
  | .nil => []
  | .aluImm op c d i next => .aluImm op c d i :: walkTree next
  | .aluReg op c d s next => .aluReg op c d s :: walkTree next
  | .immJmp op c d i f _ _ => [.immJmp op c d i f]
  | .regJmp op c d s f _ _ => [.regJmp op c d s f]

/-- Mov64 with an int source: NewAluImmInstruction(AluMov, InsClassAlu64,
dstReg, int32(srcImm)).  The Go function dispatches on the dynamic type
of its src argument; this models its int branch, the one the spec
scenarios use. -/
def Mov64 (dstReg : Option Nat) (srcImm : Int) : Instruction :=
  .aluImm AluMov InsClassAlu64 dstReg srcImm

/-- Mul64: an ALU64 MUL immediate instruction. -/
def Mul64 (dstReg : Option Nat) (imm : Int) : Instruction :=
  .aluImm AluMul InsClassAlu64 dstReg imm

/-- Exit: an IMM-JMP with opcode EXIT, DstReg R0, unused Imm and the
zero-value FalseBranchSize. -/
def Exit : Instruction :=
  .immJmp JmpExit InsClassJmp RegR0 UnusedField 0

/-- JmpGT as authored in generation_utils.go: an IMM-JMP with opcode
JGT whose DstReg field is set to RegR0 — the dstReg and imm parameters
are not used by the body. -/
def JmpGT (dstReg : Option Nat) (imm : Int) (offset : Int) : Instruction :=
  .immJmp JmpJGT InsClassJmp RegR0 UnusedField offset

/-- JmpLT as authored in generation_utils.go: a Reg-JMP (with opcode
JmpJGT, as in the source) whose DstReg field is set to RegR0. -/
def JmpLT (dstReg : Option Nat) (srcReg : Option Nat) (offset : Int) : Instruction :=
  .regJmp JmpJGT InsClassJmp RegR0 srcReg offset

/-- Jmp: an unconditional IMM-JMP with opcode JA and DstReg R0. -/
def Jmp (offset : Int) : Instruction :=
  .immJmp JmpJA InsClassJmp RegR0 UnusedField offset

/-- The Program object: root node, size, the tracked (initialized)
register list, the log map file descriptor and map size, and the ALU
register bounds.  The rng field of the Go struct is not part of the
state here: one RNG outcome is instead passed to each randomized
function as a list of raw draws.  The Gen strategy field is likewise
replaced by passing the strategy result where it is consumed. -/
structure Program where
  root : InstrTree := .nil
  size : Nat := 0
  trackedRegs : List Nat := []
  logMap : Int := 0
  MapSize : Int := 0
  MinRegister : Nat := 0
  MaxRegister : Nat := 10
deriving DecidableEq, Repr

/-- Modelled from the spec: the register model (section 4.1), missing
from src/.  GetRegisterFromNumber returns the pointer to the register
object for numbers 0..10 and (nil, UnknownRegister) otherwise; the
pointer is Option Nat, so the failing lookup is none. -/
def GetRegisterFromNumber (n : Nat) : Option Nat :=
  if n ≤ 10 then some n else none

/-- IsRegisterInitialized: true iff regNo appears in the tracked
register list. -/
def IsRegisterInitialized (a : Program) (regNo : Nat) : Bool :=
  a.trackedRegs.contains regNo

/-- MarkRegisterInitialized: appends reg to the tracked list, a no-op
when reg is outside [MinRegister, MaxRegister]. -/
def MarkRegisterInitialized (a : Program) (reg : Nat) : Program :=
  if ¬(a.MinRegister ≤ reg ∧ reg ≤ a.MaxRegister) then a
  else { a with trackedRegs := a.trackedRegs ++ [reg] }

/-- One RandRange(lo, hi) call on one RNG outcome: consumes the first
raw draw d and yields lo + d % (hi - lo + 1), in [lo, hi] whenever
lo ≤ hi.  none when the outcome has no draw left. -/
def randRange (lo hi : Nat) : List Nat → Option (Nat × List Nat)
  | [] => none
  | d :: rest => some (lo + d % (hi - lo + 1), rest)

/-- The retry loop of GetRandomRegister: draw an index into the tracked
list, reject and redraw while the candidate is outside
[MinRegister, MaxRegister].  none when the draws run out (in particular
when the Go loop would never exit). -/
def getRandomRegisterLoop (a : Program) : List Nat → Option (Nat × List Nat)
  | [] => none
  | d :: rest =>
      let reg := a.trackedRegs.getD (d % a.trackedRegs.length) 0
      if a.MinRegister ≤ reg ∧ reg ≤ a.MaxRegister then some (reg, rest)
      else getRandomRegisterLoop a rest

/-- GetRandomRegister: the sentinel 0xFF (with no draw consumed) when no
register is tracked, otherwise the rejection-sampling loop over the
tracked list. -/
def GetRandomRegister (a : Program) (draws : List Nat) : Option (Nat × List Nat) :=
  if a.trackedRegs.length = 0 then some (0xFF, draws)
  else getRandomRegisterLoop a draws

/-- Reinterpretation of a uint64 value as a Go int32, as in
int32(prog.GetRNG().RandRange(0, 0xFFFFFFFF)): keep the low 32 bits,
reading values at or above 2^31 as negative. -/
def toInt32 (v : Nat) : Int :=
  if v % 4294967296 < 2147483648 then ((v % 4294967296 : Nat) : Int)
  else ((v % 4294967296 : Nat) : Int) - 4294967296

/-- generateImmAluInstruction: draw a full-range 32-bit value; for the
shift ops reduce it with the Go % operator (Int.tmod, the truncated
remainder, which keeps the dividend's sign) modulo 32 for class ALU and
64 otherwise; force 0 for NEG; for MOV mark the destination register
initialized if it was not.  For MOV the destination pointer is
dereferenced (dstReg.RegisterNumber()); with a nil pointer that is the
Go nil dereference, modelled as none. -/
def generateImmAluInstruction (op insClass : Nat) (dstReg : Option Nat) (a : Program)
    (draws : List Nat) : Option (Instruction × Program × List Nat) :=
  match randRange 0 0xFFFFFFFF draws with
  | none => none
  | some (v, rest) =>
      let value := toInt32 v
      if op = AluRsh ∨ op = AluLsh ∨ op = AluArsh then
        let maxShift : Int := if insClass = InsClassAlu then 32 else 64
        some (.aluImm op insClass dstReg (value.tmod maxShift), a, rest)
      else if op = AluNeg then
        some (.aluImm op insClass dstReg 0, a, rest)
      else if op = AluMov then
        match dstReg with
        | none => none
        | some r =>
            let a' := if IsRegisterInitialized a r then a else MarkRegisterInitialized a r
            some (.aluImm op insClass dstReg value, a', rest)
      else
        some (.aluImm op insClass dstReg value, a, rest)

/-- The resampling loop of generateRegAluInstruction: redraw the op
while it is NEG (negation has no register form). -/
def resampleAluOpLoop (op : Nat) : List Nat → Option (Nat × List Nat)
  | [] => if op = AluNeg then none else some (op, [])
  | d :: rest =>
      if op = AluNeg then resampleAluOpLoop ((d % 0x0d) <<< 4) rest
      else some (op, d :: rest)

/-- generateRegAluInstruction: pick a source register from the tracked
set, resample the op away from NEG, and for MOV mark the destination
initialized, dereferencing the destination pointer. -/
def generateRegAluInstruction (op insClass : Nat) (dstReg : Option Nat) (a : Program)
    (draws : List Nat) : Option (Instruction × Program × List Nat) :=
  match GetRandomRegister a draws with
  | none => none
  | some (srcNo, r1) =>
      let srcReg := GetRegisterFromNumber srcNo
      match resampleAluOpLoop op r1 with
      | none => none
      | some (op', r2) =>
          if op' = AluMov then
            match dstReg with
            | none => none
            | some r =>
                let a' := if IsRegisterInitialized a r then a else MarkRegisterInitialized a r
                some (.aluReg op' insClass dstReg srcReg, a', r2)
          else some (.aluReg op' insClass dstReg srcReg, a, r2)

/-- GenerateRandomAluInstruction: draw an op from 0x00..0x0c (shifted by
4); for MOV draw the destination from [MinRegister, MaxRegister],
otherwise from the tracked set; look the number up through
GetRegisterFromNumber, discarding the error; toss a coin for the class
(ALU or ALU64) and a coin for the immediate or register form. -/
def GenerateRandomAluInstruction (a : Program) (draws : List Nat) :
    Option (Instruction × Program × List Nat) :=
  match randRange 0x00 0x0c draws with
  | none => none
  | some (rawOp, r1) =>
      let op := rawOp <<< 4
      let dstDrawn : Option (Nat × List Nat) :=
        if op = AluMov then randRange a.MinRegister a.MaxRegister r1
        else GetRandomRegister a r1
      match dstDrawn with
      | none => none
      | some (dstNo, r2) =>
          let dReg := GetRegisterFromNumber dstNo
          match randRange 0 1 r2 with
          | none => none
          | some (classCoin, r3) =>
              let insClass := if classCoin = 0 then InsClassAlu else InsClassAlu64
              match randRange 0 1 r3 with
              | none => none
              | some (formCoin, r4) =>
                  if formCoin = 0 then generateImmAluInstruction op insClass dReg a r4
                  else generateRegAluInstruction op insClass dReg a r4

/-- RandomJumpOp: a raw jump op drawn from 0x00..0x0d. -/
def RandomJumpOp (draws : List Nat) : Option (Nat × List Nat) :=
  randRange 0x00 0x0d draws

/-- IsConditional: the op is not an EXIT, CALL or JA operation. -/
def IsConditional (op : Nat) : Bool :=
  !(op == JmpExit || op == JmpCALL || op == JmpJA)

/-- The op loop of GenerateRandomJmpRegInstruction: draw a raw jump op,
shift it by 4, retry until it is conditional. -/
def pickConditionalOpLoop : List Nat → Option (Nat × List Nat)
  | [] => none
  | d :: rest =>
      let op := (d % 0x0e) <<< 4
      if IsConditional op then some (op, rest) else pickConditionalOpLoop rest

/-- The source-register loop of GenerateRandomJmpRegInstruction: pick a
register pointer from the tracked set and retry while it equals the
destination pointer.  Pointer comparison is Option equality.  Fuel
bounds the iterations: when the tracked list is empty the Go loop spins
forever without consuming draws, which the fuel turns into none; one
unit of fuel per available draw plus one covers every terminating run,
since each iteration on a non-empty tracked list consumes at least one
draw. -/
def pickSrcRegLoop (a : Program) (dstReg : Option Nat) :
    Nat → List Nat → Option (Option Nat × List Nat)
  | 0, _ => none
  | fuel + 1, draws =>
      match GetRandomRegister a draws with
      | none => none
      | some (srcNo, rest) =>
          let srcReg := GetRegisterFromNumber srcNo
          if srcReg = dstReg then pickSrcRegLoop a dstReg fuel rest
          else some (srcReg, rest)

/-- GenerateRandomJmpRegInstruction: a conditional jump op, a
destination pointer from the tracked set, and a source pointer from the
tracked set resampled until it differs from the destination.  The
true/false branch generator closures of the Go function are not data
and are not modelled. -/
def GenerateRandomJmpRegInstruction (a : Program) (draws : List Nat) :
    Option (Instruction × List Nat) :=
  match pickConditionalOpLoop draws with
  | none => none
  | some (op, r1) =>
      match GetRandomRegister a r1 with
      | none => none
      | some (dstNo, r2) =>
          let dstReg := GetRegisterFromNumber dstNo
          match pickSrcRegLoop a dstReg (r2.length + 1) r2 with
          | none => none
          | some (srcReg, r3) =>
              some (.regJmp op InsClassJmp dstReg srcReg 0, r3)

/-- Modelled from the spec: NumerateInstruction (section 4.3), missing
from src/: number(start) assigns start to the node and returns the index
one past the last node reachable along both branches, so it returns
start plus the number of reachable nodes. -/
def countNodes : InstrTree → Nat
  | .nil => 0
  | .aluImm _ _ _ _ next => 1 + countNodes next
  | .aluReg _ _ _ _ next => 1 + countNodes next
  | .immJmp _ _ _ _ _ f t => 1 + countNodes f + countNodes t
  | .regJmp _ _ _ _ _ f t => 1 + countNodes f + countNodes t

/-- Modelled from the spec: root.NumerateInstruction(0) returns the
total reachable node count, installed as the program size. -/
def NumerateInstruction (t : InstrTree) (start : Nat) : Nat :=
  start + countNodes t

/-- construct: reset the tracked register list, ask the strategy for a
root (genResult stands for the value of a.Gen.Generate(a)); a nil root
is the EmptyProgram error, otherwise the root is installed and numbered.
The RNG seeding performed here is subsumed by the draw-list model. -/
def construct (a : Program) (genResult : InstrTree) : Except Err Program :=
  let a0 := { a with trackedRegs := [] }
  match genResult with
  | .nil => .error .EmptyProgram
  | root => .ok { a0 with root := root, size := NumerateInstruction root 0 }

/-- New: create the log map (createMapResult stands for the value of the
external C.create_bpf_map call; a negative value is the map creation
error), build the Program struct, and run construct.  As in the source,
the error value returned by construct is discarded: New returns the
program and a nil error whenever map creation succeeded. -/
def New (genResult : InstrTree) (createMapResult : Int) (mapSize : Int)
    (minReg maxReg : Nat) : Except Err Program :=
  if createMapResult < 0 then .error .MapCreationFailed
  else
    let prog : Program :=
      { root := .nil, size := 0, trackedRegs := [], logMap := createMapResult,
        MapSize := mapSize, MinRegister := minReg, MaxRegister := maxReg }
    match construct prog genResult with
    | .ok p => .ok p
    | .error _ => .ok prog

/-! Helper lemmas shared by the claim theorems. -/

/-- The truncated remainder (Go's % on signed integers) lies strictly
between -n and n for a positive modulus n. -/
theorem tmod_bounds (a : Int) (n : Nat) (h : 0 < n) :
    -(n : Int) < a.tmod n ∧ a.tmod n < n := by
  cases a with
  | ofNat m =>
      have h1 : ((m : Int)).tmod (n : Int) = ((m % n : Nat) : Int) := rfl
      have h2 := Nat.mod_lt m h
      rw [show Int.ofNat m = ((m : Int)) from rfl, h1]
      omega
  | negSucc m =>
      have h1 : (Int.negSucc m).tmod (n : Int) = -(((m + 1) % n : Nat) : Int) := rfl
      have h2 := Nat.mod_lt (m + 1) h
      rw [h1]
      omega

/-- C1.  The claim reads: for every generator strategy whose Generate
hook returns no root instruction, creating a Program via New fails with
an EmptyProgram error that is reported synchronously to the caller of
New.  The code violates it: construct does produce the EmptyProgram
error, but New calls prog.construct() without looking at the returned
error and answers with the program and a nil error, so nothing reaches
the caller of New.  Evaluated at the failing input (a nil generator
result and a successful map creation returning descriptor 3). -/
theorem claim_C1_new_swallows_empty_program :
    construct { root := .nil, size := 0, trackedRegs := [], logMap := 3,
                MapSize := 5, MinRegister := 0, MaxRegister := 10 } .nil
      = .error .EmptyProgram ∧
    New .nil 3 5 0 10
      = .ok { root := .nil, size := 0, trackedRegs := [], logMap := 3,
              MapSize := 5, MinRegister := 0, MaxRegister := 10 } := by
  constructor <;> rfl

/-- C2, counterexample.  The claim says every shift immediate emitted by
generateImmAluInstruction lies in [0, 31] (ALU) or [0, 63] (ALU64).
With the RNG draw 0xFFFFFFFF the drawn 32-bit value reinterprets as -1
and Go's % keeps the dividend's sign, so the LSH/ALU64 instruction is
emitted with immediate -1, outside [0, 63]. -/
theorem claim_C2_counterexample :
    generateImmAluInstruction AluLsh InsClassAlu64 (some 0)
        { root := .nil, size := 0, trackedRegs := [], logMap := 0,
          MapSize := 0, MinRegister := 0, MaxRegister := 10 } [4294967295]
      = some (.aluImm AluLsh InsClassAlu64 (some 0) (-1),
          { root := .nil, size := 0, trackedRegs := [], logMap := 0,
            MapSize := 0, MinRegister := 0, MaxRegister := 10 }, []) ∧
    immOf (.aluImm AluLsh InsClassAlu64 (some 0) (-1)) < 0 := by
  constructor
  · rfl
  · decide

/-- C2, amended.  For every ALU-immediate instruction produced by
generateImmAluInstruction with op LSH, RSH or ARSH, and for every RNG
outcome, the emitted immediate lies strictly between -32 and 32 when the
instruction class is ALU and strictly between -64 and 64 when the class
is ALU64 (the truncated remainder keeps the sign of the random value, so
negative immediates down to -(width-1) also occur). -/
theorem claim_C2_shift_imm_bounds (op insClass : Nat) (dstReg : Option Nat)
    (a : Program) (draws : List Nat) (instr : Instruction) (a' : Program)
    (rest : List Nat)
    (hop : op = AluRsh ∨ op = AluLsh ∨ op = AluArsh)
    (h : generateImmAluInstruction op insClass dstReg a draws = some (instr, a', rest)) :
    (insClass = InsClassAlu → -32 < immOf instr ∧ immOf instr < 32) ∧
    (insClass = InsClassAlu64 → -64 < immOf instr ∧ immOf instr < 64) := by
  cases draws with
  | nil => simp [generateImmAluInstruction, randRange] at h
  | cons d rest' =>
      rw [generateImmAluInstruction] at h
      simp only [randRange, if_pos hop] at h
      obtain ⟨hinstr, _, _⟩ := Prod.mk.injEq .. ▸ Option.some.injEq .. ▸ h
      constructor
      · intro hcl
        have hb := tmod_bounds (toInt32 (0 + d % (0xFFFFFFFF - 0 + 1))) 32 (by norm_num)
        subst hcl
        rw [← hinstr]
        simp only [immOf, if_pos rfl]
        exact_mod_cast hb
      · intro hcl
        have hb := tmod_bounds (toInt32 (0 + d % (0xFFFFFFFF - 0 + 1))) 64 (by norm_num)
        subst hcl
        rw [← hinstr]
        have hne : InsClassAlu64 ≠ InsClassAlu := by decide
        simp only [immOf, if_neg hne]
        exact_mod_cast hb

/-- C2, witness: the amended theorem applied at op RSH, class ALU, a
concrete program and the single draw 5, which emits immediate 5. -/
theorem claim_C2_shift_imm_bounds_witness :
    (InsClassAlu = InsClassAlu →
      -32 < immOf (.aluImm AluRsh InsClassAlu (some 0) 5) ∧
      immOf (.aluImm AluRsh InsClassAlu (some 0) 5) < 32) ∧
    (InsClassAlu = InsClassAlu64 →
      -64 < immOf (.aluImm AluRsh InsClassAlu (some 0) 5) ∧
      immOf (.aluImm AluRsh InsClassAlu (some 0) 5) < 64) :=
  claim_C2_shift_imm_bounds AluRsh InsClassAlu (some 0)
    { root := .nil, size := 0, trackedRegs := [], logMap := 0,
      MapSize := 0, MinRegister := 0, MaxRegister := 10 } [5]
    (.aluImm AluRsh InsClassAlu (some 0) 5)
    { root := .nil, size := 0, trackedRegs := [], logMap := 0,
      MapSize := 0, MinRegister := 0, MaxRegister := 10 } []
    (Or.inl rfl) (by rfl)

/-- C7.  For every dstReg, imm and offset argument, the JmpGT
constructor returns an IMM-JMP instruction whose DstReg is R0,
regardless of the supplied dstReg parameter (which the body never
reads). -/
theorem claim_C7_jmpgt_ignores_dstreg (dstReg : Option Nat) (imm offset : Int) :
    JmpGT dstReg imm offset = Instruction.immJmp JmpJGT InsClassJmp RegR0 UnusedField offset ∧
    dstRegOf (JmpGT dstReg imm offset) = RegR0 ∧
    isJmp (JmpGT dstReg imm offset) = true :=
  ⟨rfl, rfl, rfl⟩

/-- C6.  For every flat input list consisting only of straight (non
jump) instructions, the sequence builder succeeds and walking the linear
successor links from the returned root yields exactly the input list in
order; for the empty list it returns the empty (nil) root with no
error. -/
theorem claim_C6_straight_roundtrip :
    (∀ l : List Instruction, (∀ i ∈ l, isStraight i = true) →
      ∃ t, instructionSequenceImpl l = .ok t ∧ walkTree t = l) ∧
    instructionSequenceImpl [] = .ok .nil := by
  constructor
  · intro l
    induction l with
    | nil =>
        intro _
        exact ⟨.nil, by simp [instructionSequenceImpl], rfl⟩
    | cons i rest ih =>
        intro hl
        have hi := hl i (by simp)
        have hrest : ∀ j ∈ rest, isStraight j = true := fun j hj => hl j (by simp [hj])
        obtain ⟨t, ht, hw⟩ := ih hrest
        cases i with
        | aluImm op c d imm =>
            refine ⟨.aluImm op c d imm t, ?_, ?_⟩
            · simp only [instructionSequenceImpl, ht]
            · simp [walkTree, hw]
        | aluReg op c d s =>
            refine ⟨.aluReg op c d s t, ?_, ?_⟩
            · simp only [instructionSequenceImpl, ht]
            · simp [walkTree, hw]
        | immJmp op c d imm fbs => simp [isStraight] at hi
        | regJmp op c d s fbs => simp [isStraight] at hi
  · simp [instructionSequenceImpl]

/-- C6, witness: the round trip applied to the one-element straight
list [Mov64 R0 0]. -/
theorem claim_C6_straight_roundtrip_witness :
    ∃ t, instructionSequenceImpl [Mov64 RegR0 0] = .ok t ∧
      walkTree t = [Mov64 RegR0 0] :=
  claim_C6_straight_roundtrip.1 [Mov64 RegR0 0] (by decide)

/-- C3.  The sequence builder is equivalent under nesting: for every
input list of the form [A, JMP(k), B1..Bk, C1..Cm] accepted by the
builder (A straight, JMP a jump instruction whose FalseBranchSize k
equals the length of B), the false-subtree attached to the JMP node
equals the tree built from [B1..Bk] alone and the true-subtree equals
the tree built from [C1..Cm] alone. -/
theorem claim_C3_nesting (A J : Instruction) (B C : List Instruction) (r : InstrTree)
    (hA : isStraight A = true) (hJ : isJmp J = true) (hk : fbsOf J = (B.length : Int))
    (h : instructionSequenceImpl (A :: J :: (B ++ C)) = .ok r) :
    ∃ tJ fb tb,
      instrOf r = some A ∧ nextOf r = tJ ∧ instrOf tJ = some J ∧
      instructionSequenceImpl B = .ok fb ∧ falseNextOf tJ = fb ∧
      instructionSequenceImpl C = .ok tb ∧ trueNextOf tJ = tb := by
  have hsplit : ∀ fbs : Int, fbs = (B.length : Int) →
      handleJmpInstruction (J :: (B ++ C)) fbs =
        (match instructionSequenceImpl B with
          | .error e => .error e
          | .ok fb =>
            match instructionSequenceImpl C with
            | .error e => .error e
            | .ok tb => .ok (fb, tb)) := by
    intro fbs hfbs
    subst hfbs
    rw [handleJmpInstruction]
    have h1 : ¬((B.length : Int) + 1 > ((J :: (B ++ C)).length : Int)) := by
      simp only [List.length_cons, List.length_append]
      push_cast
      omega
    have h2 : ¬((B.length : Int) + 1 < 1) := by omega
    rw [if_neg h1, if_neg h2]
    simp only [Int.toNat_natCast, List.take_left, List.drop_left]
  -- peel the straight head A
  cases A with
  | immJmp op c d imm fbs => simp [isStraight] at hA
  | regJmp op c d s fbs => simp [isStraight] at hA
  | aluImm op c d imm =>
      simp only [instructionSequenceImpl] at h
      rcases hmid : instructionSequenceImpl (J :: (B ++ C)) with e | mid <;>
        rw [hmid] at h <;> simp at h
      -- now analyse the jump J
      cases J with
      | aluImm op2 c2 d2 imm2 => simp [isJmp] at hJ
      | aluReg op2 c2 d2 s2 => simp [isJmp] at hJ
      | immJmp op2 c2 d2 imm2 fbs2 =>
          have hfbs2 : fbs2 = (B.length : Int) := hk
          simp only [instructionSequenceImpl] at hmid
          have hcond : ¬(fbs2 = 0 ∧ op2 ≠ JmpExit) ∨ True := Or.inr trivial
          by_cases h0 : fbs2 = 0 ∧ op2 ≠ JmpExit
          · rw [if_pos h0] at hmid; cases hmid
          · rw [if_neg h0] at hmid
            rw [hsplit fbs2 hfbs2] at hmid
            rcases hfb : instructionSequenceImpl B with e | fb <;> rw [hfb] at hmid <;>
              simp at hmid
            rcases htb : instructionSequenceImpl C with e | tb <;> rw [htb] at hmid <;>
              simp at hmid
            subst hmid
            subst h
            exact ⟨.immJmp op2 c2 d2 imm2 fbs2 fb tb, fb, tb,
              rfl, rfl, rfl, rfl, rfl, rfl, rfl⟩
      | regJmp op2 c2 d2 s2 fbs2 =>
          have hfbs2 : fbs2 = (B.length : Int) := hk
          simp only [instructionSequenceImpl] at hmid
          by_cases h0 : fbs2 = 0
          · rw [if_pos h0] at hmid; cases hmid
          · rw [if_neg h0] at hmid
            rw [hsplit fbs2 hfbs2] at hmid
            rcases hfb : instructionSequenceImpl B with e | fb <;> rw [hfb] at hmid <;>
              simp at hmid
            rcases htb : instructionSequenceImpl C with e | tb <;> rw [htb] at hmid <;>
              simp at hmid
            subst hmid
            subst h
            exact ⟨.regJmp op2 c2 d2 s2 fbs2 fb tb, fb, tb,
              rfl, rfl, rfl, rfl, rfl, rfl, rfl⟩
  | aluReg op c d s =>
      simp only [instructionSequenceImpl] at h
      rcases hmid : instructionSequenceImpl (J :: (B ++ C)) with e | mid <;>
        rw [hmid] at h <;> simp at h
      cases J with
      | aluImm op2 c2 d2 imm2 => simp [isJmp] at hJ
      | aluReg op2 c2 d2 s2 => simp [isJmp] at hJ
      | immJmp op2 c2 d2 imm2 fbs2 =>
          have hfbs2 : fbs2 = (B.length : Int) := hk
          simp only [instructionSequenceImpl] at hmid
          by_cases h0 : fbs2 = 0 ∧ op2 ≠ JmpExit
          · rw [if_pos h0] at hmid; cases hmid
          · rw [if_neg h0] at hmid
            rw [hsplit fbs2 hfbs2] at hmid
            rcases hfb : instructionSequenceImpl B with e | fb <;> rw [hfb] at hmid <;>
              simp at hmid
            rcases htb : instructionSequenceImpl C with e | tb <;> rw [htb] at hmid <;>
              simp at hmid
            subst hmid
            subst h
            exact ⟨.immJmp op2 c2 d2 imm2 fbs2 fb tb, fb, tb,
              rfl, rfl, rfl, rfl, rfl, rfl, rfl⟩
      | regJmp op2 c2 d2 s2 fbs2 =>
          have hfbs2 : fbs2 = (B.length : Int) := hk
          simp only [instructionSequenceImpl] at hmid
          by_cases h0 : fbs2 = 0
          · rw [if_pos h0] at hmid; cases hmid
          · rw [if_neg h0] at hmid
            rw [hsplit fbs2 hfbs2] at hmid
            rcases hfb : instructionSequenceImpl B with e | fb <;> rw [hfb] at hmid <;>
              simp at hmid
            rcases htb : instructionSequenceImpl C with e | tb <;> rw [htb] at hmid <;>
              simp at hmid
            subst hmid
            subst h
            exact ⟨.regJmp op2 c2 d2 s2 fbs2 fb tb, fb, tb,
              rfl, rfl, rfl, rfl, rfl, rfl, rfl⟩

/-- C3, witness: the nesting theorem applied to the literal scenario
list [Mov64 R1 5, JmpGT(1), Mov64 R0 7, Exit]. -/
theorem claim_C3_nesting_witness :
    ∃ tJ fb tb,
      instrOf (InstrTree.aluImm AluMov InsClassAlu64 (some 1) 5
          (.immJmp JmpJGT InsClassJmp RegR0 UnusedField 1
            (.aluImm AluMov InsClassAlu64 RegR0 7 .nil)
            (.immJmp JmpExit InsClassJmp RegR0 UnusedField 0 .nil .nil)))
        = some (Mov64 (some 1) 5) ∧
      nextOf (InstrTree.aluImm AluMov InsClassAlu64 (some 1) 5
          (.immJmp JmpJGT InsClassJmp RegR0 UnusedField 1
            (.aluImm AluMov InsClassAlu64 RegR0 7 .nil)
            (.immJmp JmpExit InsClassJmp RegR0 UnusedField 0 .nil .nil))) = tJ ∧
      instrOf tJ = some (JmpGT (some 1) 3 1) ∧
      instructionSequenceImpl [Mov64 RegR0 7] = .ok fb ∧ falseNextOf tJ = fb ∧
      instructionSequenceImpl [Exit] = .ok tb ∧ trueNextOf tJ = tb :=
  claim_C3_nesting (Mov64 (some 1) 5) (JmpGT (some 1) 3 1) [Mov64 RegR0 7] [Exit]
    (InstrTree.aluImm AluMov InsClassAlu64 (some 1) 5
      (.immJmp JmpJGT InsClassJmp RegR0 UnusedField 1
        (.aluImm AluMov InsClassAlu64 RegR0 7 .nil)
        (.immJmp JmpExit InsClassJmp RegR0 UnusedField 0 .nil .nil)))
    rfl rfl (by decide)
    (by simp [instructionSequenceImpl, handleJmpInstruction, Mov64, JmpGT, Exit,
          AluMov, InsClassAlu64, InsClassJmp, JmpJGT, JmpExit, RegR0, UnusedField])

/-- Any InvalidZeroOffset failure of the sequence builder or the branch
splitter originates at a zero-offset jump instruction present in the
input list (strong induction on the list length, following the mutual
recursion). -/
theorem izo_sound_aux : ∀ n : Nat,
    (∀ l : List Instruction, l.length ≤ n → ∀ off : Int,
       handleJmpInstruction l off = .error .InvalidZeroOffset →
       ∃ i ∈ l, isBadZeroJump i = true) ∧
    (∀ l : List Instruction, l.length ≤ n →
       instructionSequenceImpl l = .error .InvalidZeroOffset →
       ∃ i ∈ l, isBadZeroJump i = true) := by
  intro n
  induction n with
  | zero =>
      constructor
      · intro l hl off h
        have hnil : l = [] := List.length_eq_zero.mp (Nat.le_zero.mp hl)
        subst hnil
        simp [handleJmpInstruction] at h
      · intro l hl h
        have hnil : l = [] := List.length_eq_zero.mp (Nat.le_zero.mp hl)
        subst hnil
        simp [instructionSequenceImpl] at h
  | succ n ih =>
      obtain ⟨ihH, ihB⟩ := ih
      have hH : ∀ l : List Instruction, l.length ≤ n + 1 → ∀ off : Int,
          handleJmpInstruction l off = .error .InvalidZeroOffset →
          ∃ i ∈ l, isBadZeroJump i = true := by
        intro l hl off h
        cases l with
        | nil => simp [handleJmpInstruction] at h
        | cons j rest =>
            have hrest : rest.length ≤ n := by
              simp only [List.length_cons] at hl; omega
            simp only [handleJmpInstruction] at h
            split_ifs at h with h1 h2
            · simp at h
            · simp at h
            · rcases hf : instructionSequenceImpl (rest.take off.toNat) with e | fb <;>
                rw [hf] at h <;> simp at h
              · subst h
                obtain ⟨b, hb, hbad⟩ := ihB _ (by rw [List.length_take]; omega) hf
                exact ⟨b, List.mem_cons_of_mem j (List.mem_of_mem_take hb), hbad⟩
              · rcases ht : instructionSequenceImpl (rest.drop off.toNat) with e | tb <;>
                  rw [ht] at h <;> simp at h
                subst h
                obtain ⟨b, hb, hbad⟩ := ihB _ (by rw [List.length_drop]; omega) ht
                exact ⟨b, List.mem_cons_of_mem j (List.mem_of_mem_drop hb), hbad⟩
      have hB : ∀ l : List Instruction, l.length ≤ n + 1 →
          instructionSequenceImpl l = .error .InvalidZeroOffset →
          ∃ i ∈ l, isBadZeroJump i = true := by
        intro l hl h
        cases l with
        | nil => simp [instructionSequenceImpl] at h
        | cons i rest =>
            have hrest : rest.length ≤ n := by
              simp only [List.length_cons] at hl; omega
            cases i with
            | aluImm op c d imm =>
                simp only [instructionSequenceImpl] at h
                rcases hf : instructionSequenceImpl rest with e | t <;> rw [hf] at h <;>
                  simp at h
                subst h
                obtain ⟨b, hb, hbad⟩ := ihB rest hrest hf
                exact ⟨b, List.mem_cons_of_mem _ hb, hbad⟩
            | aluReg op c d s =>
                simp only [instructionSequenceImpl] at h
                rcases hf : instructionSequenceImpl rest with e | t <;> rw [hf] at h <;>
                  simp at h
                subst h
                obtain ⟨b, hb, hbad⟩ := ihB rest hrest hf
                exact ⟨b, List.mem_cons_of_mem _ hb, hbad⟩
            | immJmp op c d imm fbs =>
                simp only [instructionSequenceImpl] at h
                split_ifs at h with h0
                · refine ⟨.immJmp op c d imm fbs, by simp, ?_⟩
                  simp [isBadZeroJump, h0.1, h0.2]
                · rcases hh : handleJmpInstruction (.immJmp op c d imm fbs :: rest) fbs
                    with e | pr <;> rw [hh] at h <;> simp at h
                  subst h
                  exact hH _ hl fbs hh
            | regJmp op c d s fbs =>
                simp only [instructionSequenceImpl] at h
                split_ifs at h with h0
                · exact ⟨.regJmp op c d s fbs, by simp, by simp [isBadZeroJump, h0]⟩
                · rcases hh : handleJmpInstruction (.regJmp op c d s fbs :: rest) fbs
                    with e | pr <;> rw [hh] at h <;> simp at h
                  subst h
                  exact hH _ hl fbs hh
      exact ⟨hH, hB⟩

/-- C4.  The sequence builder rejects with InvalidZeroOffset exactly
when it meets an IMM-JMP instruction whose false_branch_size is 0 and
whose opcode is not EXIT, or a Reg-JMP instruction whose
false_branch_size is 0: every InvalidZeroOffset failure points at such
an instruction in the input, the builder fails that way whenever its
scan reaches such an instruction (after any straight prefix), and in
particular InstructionSequence(JmpGT(R0, 0, 0)) fails with
InvalidZeroOffset. -/
theorem claim_C4_invalid_zero_offset :
    (∀ l : List Instruction, instructionSequenceImpl l = .error .InvalidZeroOffset →
       ∃ i ∈ l, isBadZeroJump i = true) ∧
    (∀ (s : List Instruction) (j : Instruction) (rest : List Instruction),
       (∀ i ∈ s, isStraight i = true) → isBadZeroJump j = true →
       instructionSequenceImpl (s ++ j :: rest) = .error .InvalidZeroOffset) ∧
    InstructionSequence [JmpGT RegR0 0 0] = .error .InvalidZeroOffset := by
  refine ⟨fun l => (izo_sound_aux l.length).2 l le_rfl, ?_, ?_⟩
  · intro s j rest hs hj
    induction s with
    | nil =>
        cases j with
        | aluImm op c d imm => simp [isBadZeroJump] at hj
        | aluReg op c d s2 => simp [isBadZeroJump] at hj
        | immJmp op c d imm fbs =>
            simp only [isBadZeroJump, Bool.and_eq_true, beq_iff_eq,
              Bool.not_eq_true', beq_eq_false_iff_ne] at hj
            simp only [List.nil_append, instructionSequenceImpl]
            rw [if_pos ⟨hj.1, hj.2⟩]
        | regJmp op c d s2 fbs =>
            simp only [isBadZeroJump, beq_iff_eq] at hj
            simp only [List.nil_append, instructionSequenceImpl]
            rw [if_pos hj]
    | cons i s ih =>
        have hi := hs i (by simp)
        have hs' : ∀ x ∈ s, isStraight x = true := fun x hx => hs x (by simp [hx])
        have hrec := ih hs'
        cases i with
        | aluImm op c d imm => simp [instructionSequenceImpl, hrec]
        | aluReg op c d s2 => simp [instructionSequenceImpl, hrec]
        | immJmp op c d imm fbs => simp [isStraight] at hi
        | regJmp op c d s2 fbs => simp [isStraight] at hi
  · simp [InstructionSequence, instructionSequenceImpl, JmpGT, JmpJGT, JmpExit,
      RegR0, UnusedField]

/-- C4, witness: the rejection applied after the straight prefix
[Mov64 R0 1] with the zero-offset jump JmpGT(R0, 0, 0). -/
theorem claim_C4_invalid_zero_offset_witness :
    instructionSequenceImpl ([Mov64 RegR0 1] ++ JmpGT RegR0 0 0 :: []) =
      .error .InvalidZeroOffset :=
  claim_C4_invalid_zero_offset.2.1 [Mov64 RegR0 1] (JmpGT RegR0 0 0) []
    (by decide) (by decide)

/-- Any JumpOutOfBounds failure of the builder or the splitter
originates at a jump instruction j' heading a contiguous sublist of the
input whose length is below j's false branch size plus one (strong
induction on the list length, following the mutual recursion). -/
theorem joob_sound_aux : ∀ n : Nat,
    (∀ l : List Instruction, l.length ≤ n → ∀ j rest, l = j :: rest → isJmp j = true →
       handleJmpInstruction l (fbsOf j) = .error .JumpOutOfBounds →
       ∃ j' rest', List.IsInfix (j' :: rest') l ∧ isJmp j' = true ∧
         ((j' :: rest').length : Int) < fbsOf j' + 1) ∧
    (∀ l : List Instruction, l.length ≤ n →
       instructionSequenceImpl l = .error .JumpOutOfBounds →
       ∃ j' rest', List.IsInfix (j' :: rest') l ∧ isJmp j' = true ∧
         ((j' :: rest').length : Int) < fbsOf j' + 1) := by
  intro n
  induction n with
  | zero =>
      constructor
      · intro l hl j rest hcons _ _
        subst hcons
        simp at hl
      · intro l hl h
        have hnil : l = [] := List.length_eq_zero.mp (Nat.le_zero.mp hl)
        subst hnil
        simp [instructionSequenceImpl] at h
  | succ n ih =>
      obtain ⟨ihH, ihB⟩ := ih
      have hH : ∀ l : List Instruction, l.length ≤ n + 1 → ∀ j rest, l = j :: rest →
          isJmp j = true →
          handleJmpInstruction l (fbsOf j) = .error .JumpOutOfBounds →
          ∃ j' rest', List.IsInfix (j' :: rest') l ∧ isJmp j' = true ∧
            ((j' :: rest').length : Int) < fbsOf j' + 1 := by
        intro l hl j rest hcons hj h
        subst hcons
        have hrest : rest.length ≤ n := by
          simp only [List.length_cons] at hl; omega
        simp only [handleJmpInstruction] at h
        split_ifs at h with h1 h2
        · exact ⟨j, rest, List.infix_refl _, hj, by omega⟩
        · simp at h
        · rcases hf : instructionSequenceImpl (rest.take (fbsOf j).toNat) with e | fb <;>
            rw [hf] at h <;> simp at h
          · subst h
            obtain ⟨j', rest', hinf, hj', hlen⟩ :=
              ihB _ (by rw [List.length_take]; omega) hf
            refine ⟨j', rest', ?_, hj', hlen⟩
            exact hinf.trans
              (((rest.take_prefix (fbsOf j).toNat).isInfix).trans
                (List.suffix_cons j rest).isInfix)
          · rcases ht : instructionSequenceImpl (rest.drop (fbsOf j).toNat) with e | tb <;>
              rw [ht] at h <;> simp at h
            subst h
            obtain ⟨j', rest', hinf, hj', hlen⟩ :=
              ihB _ (by rw [List.length_drop]; omega) ht
            refine ⟨j', rest', ?_, hj', hlen⟩
            exact hinf.trans
              (((rest.drop_suffix (fbsOf j).toNat).isInfix).trans
                (List.suffix_cons j rest).isInfix)
      have hB : ∀ l : List Instruction, l.length ≤ n + 1 →
          instructionSequenceImpl l = .error .JumpOutOfBounds →
          ∃ j' rest', List.IsInfix (j' :: rest') l ∧ isJmp j' = true ∧
            ((j' :: rest').length : Int) < fbsOf j' + 1 := by
        intro l hl h
        cases l with
        | nil => simp [instructionSequenceImpl] at h
        | cons i rest =>
            have hrest : rest.length ≤ n := by
              simp only [List.length_cons] at hl; omega
            cases i with
            | aluImm op c d imm =>
                simp only [instructionSequenceImpl] at h
                rcases hf : instructionSequenceImpl rest with e | t <;> rw [hf] at h <;>
                  simp at h
                subst h
                obtain ⟨j', rest', hinf, hj', hlen⟩ := ihB rest hrest hf
                exact ⟨j', rest', hinf.trans (List.suffix_cons _ _).isInfix, hj', hlen⟩
            | aluReg op c d s =>
                simp only [instructionSequenceImpl] at h
                rcases hf : instructionSequenceImpl rest with e | t <;> rw [hf] at h <;>
                  simp at h
                subst h
                obtain ⟨j', rest', hinf, hj', hlen⟩ := ihB rest hrest hf
                exact ⟨j', rest', hinf.trans (List.suffix_cons _ _).isInfix, hj', hlen⟩
            | immJmp op c d imm fbs =>
                simp only [instructionSequenceImpl] at h
                split_ifs at h with h0
                · simp at h
                · rcases hh : handleJmpInstruction (.immJmp op c d imm fbs :: rest) fbs
                    with e | pr <;> rw [hh] at h <;> simp at h
                  subst h
                  exact hH _ hl _ rest rfl rfl hh
            | regJmp op c d s fbs =>
                simp only [instructionSequenceImpl] at h
                split_ifs at h with h0
                · simp at h
                · rcases hh : handleJmpInstruction (.regJmp op c d s fbs :: rest) fbs
                    with e | pr <;> rw [hh] at h <;> simp at h
                  subst h
                  exact hH _ hl _ rest rfl rfl hh
      exact ⟨hH, hB⟩

/-- C5.  The branch splitter fails with JumpOutOfBounds exactly when a
jump's false_branch_size plus one exceeds the number of instructions
remaining from the jump onward: it fails that way whenever its own
offset+1 exceeds its (non-empty) input length, every JumpOutOfBounds
failure points at a jump heading a contiguous sublist shorter than its
false_branch_size + 1, and in particular
InstructionSequence(JmpGT(R0, 0, 5), Mov64(R0, 1), Exit()) fails with
JumpOutOfBounds. -/
theorem claim_C5_jump_out_of_bounds :
    (∀ (l : List Instruction) (off : Int), l ≠ [] →
       (l.length : Int) < off + 1 → handleJmpInstruction l off = .error .JumpOutOfBounds) ∧
    (∀ (j : Instruction) (rest : List Instruction), isJmp j = true →
       handleJmpInstruction (j :: rest) (fbsOf j) = .error .JumpOutOfBounds →
       ∃ j' rest', List.IsInfix (j' :: rest') (j :: rest) ∧ isJmp j' = true ∧
         ((j' :: rest').length : Int) < fbsOf j' + 1) ∧
    InstructionSequence [JmpGT RegR0 0 5, Mov64 RegR0 1, Exit] =
      .error .JumpOutOfBounds := by
  refine ⟨?_, ?_, ?_⟩
  · intro l off hne hlt
    cases l with
    | nil => exact absurd rfl hne
    | cons j rest =>
        simp only [handleJmpInstruction]
        rw [if_pos (by omega)]
  · intro j rest hj h
    exact (joob_sound_aux (j :: rest).length).1 _ le_rfl j rest rfl hj h
  · simp [InstructionSequence, instructionSequenceImpl, handleJmpInstruction,
      JmpGT, Mov64, Exit, JmpJGT, JmpExit, RegR0, UnusedField, AluMov,
      InsClassAlu64, InsClassJmp]

/-- C5, witness: the splitter applied to the single jump JmpGT(R0,0,5)
with offset 7, which exceeds the one remaining instruction. -/
theorem claim_C5_jump_out_of_bounds_witness :
    handleJmpInstruction [JmpGT RegR0 0 5] 7 = .error .JumpOutOfBounds :=
  claim_C5_jump_out_of_bounds.1 [JmpGT RegR0 0 5] 7 (by decide) (by decide)

/-- Every register the rejection loop of GetRandomRegister returns is a
tracked register inside [MinRegister, MaxRegister]. -/
theorem getRandomRegisterLoop_spec (a : Program) (hne : a.trackedRegs ≠ []) :
    ∀ (draws : List Nat) (v : Nat) (rest : List Nat),
      getRandomRegisterLoop a draws = some (v, rest) →
      v ∈ a.trackedRegs ∧ a.MinRegister ≤ v ∧ v ≤ a.MaxRegister := by
  intro draws
  induction draws with
  | nil => intro v rest h; simp [getRandomRegisterLoop] at h
  | cons d ds ih =>
      intro v rest h
      simp only [getRandomRegisterLoop] at h
      split_ifs at h with hr
      · rw [Option.some.injEq, Prod.mk.injEq] at h
        obtain ⟨rfl, rfl⟩ := h
        refine ⟨?_, hr.1, hr.2⟩
        have hlt : d % a.trackedRegs.length < a.trackedRegs.length :=
          Nat.mod_lt _ (List.length_pos.mpr hne)
        rw [List.getD_eq_getElem _ _ hlt]
        exact List.getElem_mem hlt
      · exact ih v rest h

/-- On a program with a non-empty tracked list, GetRandomRegister only
returns tracked registers inside [MinRegister, MaxRegister]. -/
theorem getRandomRegister_mem (a : Program) (hne : a.trackedRegs ≠ [])
    (draws : List Nat) (v : Nat) (rest : List Nat)
    (h : GetRandomRegister a draws = some (v, rest)) :
    v ∈ a.trackedRegs ∧ a.MinRegister ≤ v ∧ v ≤ a.MaxRegister := by
  unfold GetRandomRegister at h
  rw [if_neg (by simpa using hne)] at h
  exact getRandomRegisterLoop_spec a hne draws v rest h

/-- The op resampling loop of the JMP-reg factory only returns
conditional opcodes. -/
theorem pickConditionalOpLoop_spec :
    ∀ (draws : List Nat) (op : Nat) (rest : List Nat),
      pickConditionalOpLoop draws = some (op, rest) → IsConditional op = true := by
  intro draws
  induction draws with
  | nil => intro op rest h; simp [pickConditionalOpLoop] at h
  | cons d ds ih =>
      intro op rest h
      simp only [pickConditionalOpLoop] at h
      split_ifs at h with hc
      · simp at h
        obtain ⟨rfl, rfl⟩ := h
        exact hc
      · exact ih op rest h

/-- The source-register resampling loop only returns a pointer different
from the destination pointer, obtained by looking up a GetRandomRegister
result. -/
theorem pickSrcRegLoop_spec (a : Program) (dstReg : Option Nat) :
    ∀ (fuel : Nat) (draws : List Nat) (srcReg : Option Nat) (rest : List Nat),
      pickSrcRegLoop a dstReg fuel draws = some (srcReg, rest) →
      srcReg ≠ dstReg ∧ ∃ (ds : List Nat) (srcNo : Nat) (r : List Nat),
        GetRandomRegister a ds = some (srcNo, r) ∧
        srcReg = GetRegisterFromNumber srcNo := by
  intro fuel
  induction fuel with
  | zero => intro draws srcReg rest h; simp [pickSrcRegLoop] at h
  | succ fuel ih =>
      intro draws srcReg rest h
      simp only [pickSrcRegLoop] at h
      rcases hg : GetRandomRegister a draws with _ | ⟨srcNo, r⟩ <;> rw [hg] at h <;>
        simp at h
      split_ifs at h with heq
      · exact ih r srcReg rest h
      · simp at h
        obtain ⟨rfl, rfl⟩ := h
        exact ⟨heq, draws, srcNo, r, hg, rfl⟩

/-- C8.  Every instruction returned by GenerateRandomJmpRegInstruction,
for every RNG outcome on a program with at least two distinct
initialized registers (all valid register numbers), has an opcode that
is not EXIT, CALL or JA, and real dst and src register handles with
dst_reg different from src_reg. -/
theorem claim_C8_jmp_reg_wellformed (a : Program) (draws : List Nat)
    (instr : Instruction) (rest : List Nat)
    (hvalid : ∀ r ∈ a.trackedRegs, r ≤ 10)
    (htwo : ∃ r1 ∈ a.trackedRegs, ∃ r2 ∈ a.trackedRegs, r1 ≠ r2)
    (h : GenerateRandomJmpRegInstruction a draws = some (instr, rest)) :
    (opOf instr ≠ JmpExit ∧ opOf instr ≠ JmpCALL ∧ opOf instr ≠ JmpJA) ∧
    ∃ dn sn, dstRegOf instr = some dn ∧ srcRegOf instr = some sn ∧ dn ≠ sn := by
  have hne : a.trackedRegs ≠ [] := by
    obtain ⟨r1, hr1, -⟩ := htwo
    intro hE
    rw [hE] at hr1
    simp at hr1
  unfold GenerateRandomJmpRegInstruction at h
  rcases hop : pickConditionalOpLoop draws with _ | ⟨op, r1⟩ <;> rw [hop] at h <;>
    simp at h
  rcases hd : GetRandomRegister a r1 with _ | ⟨dstNo, r2⟩ <;> rw [hd] at h <;>
    simp at h
  rcases hs : pickSrcRegLoop a (GetRegisterFromNumber dstNo) (r2.length + 1) r2
    with _ | ⟨srcReg, r3⟩ <;> rw [hs] at h <;> simp at h
  obtain ⟨rfl, rfl⟩ := h
  have hcond := pickConditionalOpLoop_spec draws op r1 hop
  have hdmem := (getRandomRegister_mem a hne r1 dstNo r2 hd).1
  have hd10 : dstNo ≤ 10 := hvalid dstNo hdmem
  have hdreg : GetRegisterFromNumber dstNo = some dstNo := by
    simp [GetRegisterFromNumber, hd10]
  obtain ⟨hne', ds, srcNo, r', hg, hsrc⟩ :=
    pickSrcRegLoop_spec a (GetRegisterFromNumber dstNo) (r2.length + 1) r2 srcReg r3 hs
  have hsmem := (getRandomRegister_mem a hne ds srcNo r' hg).1
  have hs10 : srcNo ≤ 10 := hvalid srcNo hsmem
  have hsreg : srcReg = some srcNo := by
    rw [hsrc]
    simp [GetRegisterFromNumber, hs10]
  constructor
  · simp only [IsConditional, Bool.not_eq_true', Bool.or_eq_false_iff,
      beq_eq_false_iff_ne] at hcond
    exact ⟨hcond.1.1, hcond.1.2, hcond.2⟩
  · refine ⟨dstNo, srcNo, ?_, ?_, ?_⟩
    · simp [dstRegOf, hdreg]
    · simp [srcRegOf, hsreg]
    · intro hEq
      apply hne'
      rw [hsreg, hdreg, hEq]

/-- C8, witness: the theorem applied to the program tracking registers
1 and 2 with the draw list [1, 0, 1], which yields JEQ with dst R1 and
src R2. -/
theorem claim_C8_jmp_reg_wellformed_witness :
    (opOf (.regJmp 16 InsClassJmp (some 1) (some 2) 0) ≠ JmpExit ∧
     opOf (.regJmp 16 InsClassJmp (some 1) (some 2) 0) ≠ JmpCALL ∧
     opOf (.regJmp 16 InsClassJmp (some 1) (some 2) 0) ≠ JmpJA) ∧
    ∃ dn sn, dstRegOf (.regJmp 16 InsClassJmp (some 1) (some 2) 0) = some dn ∧
      srcRegOf (.regJmp 16 InsClassJmp (some 1) (some 2) 0) = some sn ∧ dn ≠ sn :=
  claim_C8_jmp_reg_wellformed
    { root := .nil, size := 0, trackedRegs := [1, 2], logMap := 0,
      MapSize := 0, MinRegister := 0, MaxRegister := 10 }
    [1, 0, 1] (.regJmp 16 InsClassJmp (some 1) (some 2) 0) []
    (by decide) ⟨1, by decide, 2, by decide, by decide⟩ (by rfl)

/-- C9.  Every element of a Program's tracked-register list lies in
[MinRegister, MaxRegister]: construct initializes the list empty,
MarkRegisterInitialized (the only mutator) preserves the invariant by
discarding out-of-range registers, and on a non-empty tracked list
satisfying the invariant GetRandomRegister's range-rejection loop
accepts on the first draw and returns an in-range tracked register. -/
theorem claim_C9_tracked_register_invariant :
    (∀ (a : Program) (g : InstrTree) (p : Program), construct a g = .ok p →
       p.trackedRegs = []) ∧
    (∀ (a : Program) (r : Nat),
       (∀ x ∈ a.trackedRegs, a.MinRegister ≤ x ∧ x ≤ a.MaxRegister) →
       ∀ x ∈ (MarkRegisterInitialized a r).trackedRegs,
         a.MinRegister ≤ x ∧ x ≤ a.MaxRegister) ∧
    (∀ a : Program,
       (∀ x ∈ a.trackedRegs, a.MinRegister ≤ x ∧ x ≤ a.MaxRegister) →
       a.trackedRegs ≠ [] → ∀ (d : Nat) (ds : List Nat),
       ∃ reg, GetRandomRegister a (d :: ds) = some (reg, ds) ∧
         reg ∈ a.trackedRegs ∧ a.MinRegister ≤ reg ∧ reg ≤ a.MaxRegister) := by
  refine ⟨?_, ?_, ?_⟩
  · intro a g p h
    cases g <;> simp [construct] at h <;> rw [← h]
  · intro a r hinv x hx
    by_cases hr : a.MinRegister ≤ r ∧ r ≤ a.MaxRegister
    · unfold MarkRegisterInitialized at hx
      rw [if_neg (not_not_intro hr)] at hx
      simp at hx
      rcases hx with hx | rfl
      · exact hinv x hx
      · exact hr
    · unfold MarkRegisterInitialized at hx
      rw [if_pos hr] at hx
      exact hinv x hx
  · intro a hinv hne d ds
    have hlt : d % a.trackedRegs.length < a.trackedRegs.length :=
      Nat.mod_lt _ (List.length_pos.mpr hne)
    have hmem : a.trackedRegs.getD (d % a.trackedRegs.length) 0 ∈ a.trackedRegs := by
      rw [List.getD_eq_getElem _ _ hlt]
      exact List.getElem_mem hlt
    have hrange := hinv _ hmem
    refine ⟨a.trackedRegs.getD (d % a.trackedRegs.length) 0, ?_, hmem, hrange⟩
    unfold GetRandomRegister
    rw [if_neg (by simpa using hne)]
    unfold getRandomRegisterLoop
    rw [if_pos hrange]

/-- C9, witness: the first-draw acceptance applied to a program
tracking register 3 with bounds [1, 9]. -/
theorem claim_C9_tracked_register_invariant_witness :
    ∃ reg, GetRandomRegister
        ({ root := .nil, size := 0, trackedRegs := [3], logMap := 0,
           MapSize := 0, MinRegister := 1, MaxRegister := 9 } : Program) [0]
        = some (reg, ([] : List Nat)) ∧
      reg ∈ [3] ∧ 1 ≤ reg ∧ reg ≤ 9 :=
  claim_C9_tracked_register_invariant.2.2
    ({ root := .nil, size := 0, trackedRegs := [3], logMap := 0,
       MapSize := 0, MinRegister := 1, MaxRegister := 9 } : Program)
    (by decide) (by decide) 0 []

/-- Every instruction generateImmAluInstruction returns is an ALU-imm
instruction carrying exactly the op, class and destination pointer it
was given. -/
theorem generateImm_shape (op c : Nat) (dr : Option Nat) (a : Program)
    (draws : List Nat) (instr : Instruction) (a' : Program) (rest : List Nat)
    (h : generateImmAluInstruction op c dr a draws = some (instr, a', rest)) :
    ∃ i, instr = .aluImm op c dr i := by
  cases draws with
  | nil => simp [generateImmAluInstruction, randRange] at h
  | cons d ds =>
      simp only [generateImmAluInstruction, randRange] at h
      split_ifs at h
      all_goals rcases dr with _ | r
      all_goals simp at h
      all_goals exact ⟨_, h.1.symm⟩

/-- On a program with a non-empty, valid tracked list, every instruction
generateRegAluInstruction returns is an ALU-reg instruction carrying the
given destination pointer and a real source register handle. -/
theorem generateReg_shape (op c : Nat) (dr : Option Nat) (a : Program)
    (draws : List Nat) (instr : Instruction) (a' : Program) (rest : List Nat)
    (hne : a.trackedRegs ≠ []) (hvalid : ∀ r ∈ a.trackedRegs, r ≤ 10)
    (h : generateRegAluInstruction op c dr a draws = some (instr, a', rest)) :
    ∃ op' s, instr = .aluReg op' c dr (some s) := by
  unfold generateRegAluInstruction at h
  rcases hg : GetRandomRegister a draws with _ | ⟨srcNo, r1⟩ <;> rw [hg] at h <;>
    simp at h
  have hs10 : srcNo ≤ 10 := hvalid srcNo (getRandomRegister_mem a hne draws srcNo r1 hg).1
  have hsreg : GetRegisterFromNumber srcNo = some srcNo := by
    simp [GetRegisterFromNumber, hs10]
  rcases hr : resampleAluOpLoop op r1 with _ | ⟨op', r2⟩ <;> rw [hr] at h <;> simp at h
  split_ifs at h with hmov
  · rcases dr with _ | r
    · simp at h
    · simp at h
      exact ⟨op', srcNo, by rw [h.1.symm, hsreg]⟩
  · simp at h
    exact ⟨op', srcNo, by rw [h.1.symm, hsreg]⟩

/-- C10.  On a program whose tracked-register list is non-empty (with
valid register numbers and bounds), every register handle inside an
instruction returned by GenerateRandomAluInstruction is a real register
object, i.e. every GetRegisterFromNumber lookup it performed succeeded.
On a program with an empty tracked list, the RNG outcome [8,0,1,11,99]
(a non-MOV op draw, NEG) makes GetRandomRegister return the sentinel
0xFF with no draw consumed, its GetRegisterFromNumber lookup fails and
yields the nil destination handle, and the factory then dereferences
that nil handle: the register form resamples the NEG op to MOV and
calls RegisterNumber() on the nil destination, so the run gets stuck
(none) with the spare draw 99 never consumed.  The last two conjuncts
isolate the dereference inside generateRegAluInstruction on the same
draws [11,99,99]: with the nil destination the resample to MOV hits the
dereference and the run is none, while with a real destination handle
the same draws succeed, returning an instruction and the remaining
draws [99,99] - so the none is the nil dereference, not draw
exhaustion. -/
theorem claim_C10_alu_lookup_safety :
    (∀ (a : Program) (draws : List Nat) (instr : Instruction) (a' : Program)
       (rest : List Nat),
       a.trackedRegs ≠ [] → (∀ r ∈ a.trackedRegs, r ≤ 10) →
       a.MinRegister ≤ a.MaxRegister → a.MaxRegister ≤ 10 →
       GenerateRandomAluInstruction a draws = some (instr, a', rest) →
       regHandlesPresent instr = true) ∧
    (GetRandomRegister
        ({ root := .nil, size := 0, trackedRegs := [], logMap := 0,
           MapSize := 0, MinRegister := 0, MaxRegister := 10 } : Program) [0, 1, 11, 99]
       = some (0xFF, [0, 1, 11, 99]) ∧
     GetRegisterFromNumber 0xFF = none ∧
     GenerateRandomAluInstruction
        ({ root := .nil, size := 0, trackedRegs := [], logMap := 0,
           MapSize := 0, MinRegister := 0, MaxRegister := 10 } : Program) [8, 0, 1, 11, 99]
       = none ∧
     generateRegAluInstruction AluNeg InsClassAlu none
        ({ root := .nil, size := 0, trackedRegs := [], logMap := 0,
           MapSize := 0, MinRegister := 0, MaxRegister := 10 } : Program) [11, 99, 99]
       = none ∧
     generateRegAluInstruction AluNeg InsClassAlu (some 0)
        ({ root := .nil, size := 0, trackedRegs := [], logMap := 0,
           MapSize := 0, MinRegister := 0, MaxRegister := 10 } : Program) [11, 99, 99]
       = some (.aluReg AluMov InsClassAlu (some 0) none,
           ({ root := .nil, size := 0, trackedRegs := [0], logMap := 0,
              MapSize := 0, MinRegister := 0, MaxRegister := 10 } : Program), [99, 99])) := by
  constructor
  · intro a draws instr a' rest hne hvalid hminmax hmax h
    unfold GenerateRandomAluInstruction at h
    rcases draws with _ | ⟨d, r1⟩
    · simp [randRange] at h
    simp only [randRange] at h
    by_cases hmov : (0 + d % (0x0c - 0x00 + 1)) <<< 4 = AluMov
    · rw [if_pos hmov] at h
      rcases r1 with _ | ⟨d2, r2⟩
      · simp [randRange] at h
      simp only [randRange] at h
      have h10 : a.MinRegister + d2 % (a.MaxRegister - a.MinRegister + 1) ≤ 10 := by
        have := Nat.mod_lt d2
          (show 0 < a.MaxRegister - a.MinRegister + 1 by omega)
        omega
      have hreg : GetRegisterFromNumber
          (a.MinRegister + d2 % (a.MaxRegister - a.MinRegister + 1))
            = some (a.MinRegister + d2 % (a.MaxRegister - a.MinRegister + 1)) := by
        simp [GetRegisterFromNumber, h10]
      rcases r2 with _ | ⟨d3, r3⟩
      · simp [randRange] at h
      simp only [randRange] at h
      rcases r3 with _ | ⟨d4, r4⟩
      · simp [randRange] at h
      simp only [randRange] at h
      split_ifs at h
      all_goals
        first
        | (obtain ⟨i, rfl⟩ := generateImm_shape _ _ _ _ _ _ _ _ h
           simp [regHandlesPresent, hreg])
        | (obtain ⟨op', s, rfl⟩ := generateReg_shape _ _ _ _ _ _ _ _ hne hvalid h
           simp [regHandlesPresent, hreg])
    · rw [if_neg hmov] at h
      rcases hg : GetRandomRegister a r1 with _ | ⟨dstNo, r2⟩ <;> rw [hg] at h
      · simp at h
      have h10 : dstNo ≤ 10 :=
        hvalid dstNo (getRandomRegister_mem a hne r1 dstNo r2 hg).1
      have hreg : GetRegisterFromNumber dstNo = some dstNo := by
        simp [GetRegisterFromNumber, h10]
      rcases r2 with _ | ⟨d3, r3⟩
      · simp [randRange] at h
      simp only [randRange] at h
      rcases r3 with _ | ⟨d4, r4⟩
      · simp [randRange] at h
      simp only [randRange] at h
      split_ifs at h
      all_goals
        first
        | (obtain ⟨i, rfl⟩ := generateImm_shape _ _ _ _ _ _ _ _ h
           simp [regHandlesPresent, hreg])
        | (obtain ⟨op', s, rfl⟩ := generateReg_shape _ _ _ _ _ _ _ _ hne hvalid h
           simp [regHandlesPresent, hreg])
  · exact ⟨by rfl, by rfl, by rfl, by rfl, by rfl⟩

/-- C10, witness: the lookup-success half applied to a program tracking
registers 2 and 3 with the draw list [1, 0, 0, 0, 0]. -/
theorem claim_C10_alu_lookup_safety_witness :
    regHandlesPresent (.aluImm 16 InsClassAlu (some 2) 0) = true :=
  claim_C10_alu_lookup_safety.1
    ({ root := .nil, size := 0, trackedRegs := [2, 3], logMap := 0,
       MapSize := 0, MinRegister := 0, MaxRegister := 10 } : Program)
    [1, 0, 0, 0, 0] (.aluImm 16 InsClassAlu (some 2) 0)
    ({ root := .nil, size := 0, trackedRegs := [2, 3], logMap := 0,
       MapSize := 0, MinRegister := 0, MaxRegister := 10 } : Program) []
    (by decide) (by decide) (by decide) (by decide) (by rfl)
